import Mathlib

/-!
Verification of the feature-proxy routing/registry/transport core
(`reverseproxy.go`, package `proxy`).

The embedding below translates the Go source into Lean:

* Go strings are `String`/`List Char` (subdomains and patterns are treated
  rune-by-rune; the repository only routes ASCII hostname labels, for which
  Go's byte-wise `path.Match` and the rune-wise model agree).
* `time.Time`/`time.Duration` are `Nat` ticks; machine integers never
  overflow in the modelled code paths.
* Go maps are association lists; the list order stands for one concrete
  iteration order of Go's (unspecified) map iteration.
* `http.Handler` values are opaque tokens (`Nat`); the code never inspects
  them, it only stores and returns them.
* fallible library calls return `Option` (`none` = the Go error case).
-/

/-- Opaque stand-in for `http.Handler`: the proxy core only stores and
returns handlers, never inspects them. -/
abbrev HttpHandler := Nat

/-! ## Go standard library: `path.Match`

`ReverseProxy.FindHandler` and `Exists` call `path.Match(name, subdomain)`
and discard the error (`m, _ := path.Match(...)`); on a malformed pattern
Go returns `(false, ErrBadPattern)`, so the discarded-error call is simply
`false`.  The functions below translate `path/match.go` (Go 1.22).
Loops over the pattern are written with an explicit fuel argument so that
every function is structurally recursive (and hence computes by `rfl`);
each Go loop iteration consumes at least one pattern character, so the
initial fuel `length + 1` is never exhausted. -/

/-- `getEsc` from `path/match.go`: read a (possibly `\`-escaped) character
of a character class.  `none` is Go's `ErrBadPattern`. -/
def getEsc : List Char → Option (Char × List Char)
  | [] => none
  | c :: rest =>
    if c = '-' ∨ c = ']' then none
    else if c = '\\' then
      match rest with
      | [] => none
      | d :: rest2 => if rest2.isEmpty then none else some (d, rest2)
    else if rest.isEmpty then none else some (c, rest)

/-- The range-parsing loop of `matchChunk`'s `'['` case: scan the ranges of
a character class against rune `r`, returning whether some range matched
and the rest of the chunk.  `none` is `ErrBadPattern`. -/
def matchRangesF : Nat → Char → Bool → Nat → List Char → Option (Bool × List Char)
  | 0, _, _, _, _ => none
  | fuel + 1, r, matched, nrange, chunk =>
    match chunk, nrange with
    | ']' :: rest, _ + 1 => some (matched, rest)
    | _, _ =>
      match getEsc chunk with
      | none => none
      | some (lo, ch1) =>
        match ch1 with
        | [] => none
        | c1 :: ch2 =>
          if c1 = '-' then
            match getEsc ch2 with
            | none => none
            | some (hi, ch3) =>
              matchRangesF fuel r (matched || decide (lo ≤ r ∧ r ≤ hi)) (nrange + 1) ch3
          else
            matchRangesF fuel r (matched || decide (lo ≤ r ∧ r ≤ lo)) (nrange + 1) ch1

/-- Entry point of the range loop; every iteration consumes at least one
chunk character, so `chunk.length + 1` fuel suffices. -/
def matchRanges (r : Char) (matched : Bool) (nrange : Nat) (chunk : List Char) :
    Option (Bool × List Char) :=
  matchRangesF (chunk.length + 1) r matched nrange chunk

/-- `matchChunk` from `path/match.go`: match a wildcard-free chunk at the
beginning of `s`, returning the rest of `s` and whether it matched; after a
failure the chunk is still consumed to diagnose bad patterns.  `none` is
`ErrBadPattern`.  (The `[] => ...` arms for `s` inside the non-failed
branches are unreachable: `failed` is set whenever `s` is empty.) -/
def matchChunkF : Nat → List Char → List Char → Bool → Option (List Char × Bool)
  | 0, _, _, _ => none
  | _ + 1, [], s, failed => if failed then some ([], false) else some (s, true)
  | fuel + 1, c :: ch, s, failed0 =>
    let failed := failed0 || s.isEmpty
    if c = '[' then
      match matchRanges (if failed then Char.ofNat 0 else s.headD (Char.ofNat 0)) false 0
          (if ch.head? == some '^' then ch.tail else ch) with
      | none => none
      | some (m, ch2) =>
        matchChunkF fuel ch2 (if failed then s else s.tail)
          (failed || (m == (ch.head? == some '^')))
    else if c = '?' then
      if failed then matchChunkF fuel ch s true
      else
        match s with
        | [] => matchChunkF fuel ch s true
        | a :: s2 => matchChunkF fuel ch s2 (a == '/')
    else if c = '\\' then
      match ch with
      | [] => none
      | d :: ch2 =>
        if failed then matchChunkF fuel ch2 s true
        else
          match s with
          | [] => matchChunkF fuel ch2 s true
          | a :: s2 => matchChunkF fuel ch2 s2 (!(d == a))
    else
      if failed then matchChunkF fuel ch s true
      else
        match s with
        | [] => matchChunkF fuel ch s true
        | a :: s2 => matchChunkF fuel ch s2 (!(c == a))

/-- Entry point of `matchChunk`; every iteration consumes at least one
chunk character, so `chunk.length + 1` fuel suffices. -/
def matchChunk (chunk s : List Char) (failed : Bool) : Option (List Char × Bool) :=
  matchChunkF (chunk.length + 1) chunk s failed

/-- The leading-`*` stripping loop of `scanChunk`. -/
def stripStars : List Char → Bool × List Char
  | '*' :: rest => (true, (stripStars rest).2)
  | l => (false, l)

/-- The chunk-splitting loop of `scanChunk`: cut the pattern at the next
`*` that is outside a `[...]` class (a `\` escapes the following
character). -/
def splitChunk (inrange : Bool) : List Char → List Char × List Char
  | [] => ([], [])
  | c :: rest =>
    if c = '*' ∧ inrange = false then ([], c :: rest)
    else if c = '\\' then
      match rest with
      | [] => ([c], [])
      | d :: rest2 =>
        (c :: d :: (splitChunk inrange rest2).1, (splitChunk inrange rest2).2)
    else
      (c :: (splitChunk (if c = '[' then true else if c = ']' then false else inrange) rest).1,
       (splitChunk (if c = '[' then true else if c = ']' then false else inrange) rest).2)

/-- `scanChunk` from `path/match.go`: split the pattern into a leading-`*`
flag, the next wildcard-free chunk, and the remaining pattern. -/
def scanChunk (pattern : List Char) : Bool × List Char × List Char :=
  ((stripStars pattern).1, (splitChunk false (stripStars pattern).2).1,
   (splitChunk false (stripStars pattern).2).2)

/-- The inner `star` loop of `Match`: try to match `chunk` at every later
position of `name` (never skipping past a `/`).  `some t` resumes the outer
loop with `name := t`; `none` is `Match`'s `return false` (including the
`ErrBadPattern` case). -/
def starLoop (chunk rest : List Char) : List Char → Option (List Char)
  | [] => none
  | a :: name2 =>
    if a == '/' then none
    else
      match matchChunk chunk name2 false with
      | none => none
      | some (t, ok) =>
        if ok then
          if rest.isEmpty && !t.isEmpty then starLoop chunk rest name2
          else some t
        else starLoop chunk rest name2

/-- The outer `Pattern` loop of `path.Match`.  Each iteration consumes at
least one pattern character, so `pattern.length + 1` fuel suffices. -/
def pmatchF : Nat → List Char → List Char → Bool
  | 0, _, _ => false
  | _ + 1, [], name => name.isEmpty
  | fuel + 1, p :: pr, name =>
    match scanChunk (p :: pr) with
    | (star, chunk, rest) =>
      if star && chunk.isEmpty then !(name.contains '/')
      else
        match matchChunk chunk name false with
        | none => false
        | some (t, ok) =>
          if ok && (t.isEmpty || !rest.isEmpty) then pmatchF fuel rest t
          else if star then
            match starLoop chunk rest name with
            | none => false
            | some t2 => pmatchF fuel rest t2
          else false

/-- `path.Match(pattern, name)` with the error dropped, exactly as the
callers in `reverseproxy.go` drop it (`m, _ := path.Match(name, subdomain)`):
a malformed pattern simply does not match. -/
def pmatch (pattern name : List Char) : Bool :=
  pmatchF (pattern.length + 1) pattern name

/-- `path.Match` on Go strings. -/
def pmatchStr (pattern name : String) : Bool :=
  pmatch pattern.toList name.toList

/-! ## Association-list model of Go maps

Go map reads/writes; the list order models one concrete iteration order of
Go's unspecified map iteration (claims about "first entry found" quantify
over arbitrary lists, i.e. over arbitrary iteration orders). -/

/-- Go map read with `ok` flag: `v, ok := m[k]`. -/
def lookupA {κ α : Type} [BEq κ] (m : List (κ × α)) (k : κ) : Option α :=
  (m.find? (fun e => e.1 == k)).map (fun e => e.2)

/-- Go map write `m[k] = v`: replace the entry in place, or append. -/
def updateA {κ α : Type} [BEq κ] : List (κ × α) → κ → α → List (κ × α)
  | [], k, v => [(k, v)]
  | e :: rest, k, v => if e.1 == k then (k, v) :: rest else e :: updateA rest k v

/-! ## Backend handles (`proxyHandler`, reverseproxy.go:106-129)

A `proxyHandler` couples a handler with a `time.Timer` of duration
`proxyHandlerLifetime`.  The timer is modelled by its observable state: the
absolute `deadline` at which it fires, plus `consumed`, which records
whether the single value the timer sends on its (capacity-1, fire-once)
channel has already been received.  `alive()` is the non-blocking receive
`select { case <-h.timer.C: false; default: true }`: it returns `false`
(and drains the channel) exactly when the timer has fired and the value is
still in the channel; in every other state the `default` branch returns
`true`. -/

/-- `var proxyHandlerLifetime = 30 * time.Second`, in ticks of one second. -/
def proxyHandlerLifetime : Nat := 30

/-- One backend handle: `proxyHandler{handler, timer}` with the timer
modelled by its fire deadline and drained-channel flag. -/
structure ProxyHandler where
  handler : HttpHandler
  deadline : Nat
  consumed : Bool
deriving DecidableEq, Repr

/-- `newProxyHandler(h)` at current time `now`: a fresh handle whose timer
fires at `now + proxyHandlerLifetime` and whose channel is undrained. -/
def newProxyHandler (h : HttpHandler) (now : Nat) : ProxyHandler :=
  { handler := h, deadline := now + proxyHandlerLifetime, consumed := false }

/-- `(h *proxyHandler) alive()` evaluated at time `now`: the non-blocking
receive returns `false` and drains the channel iff the timer has fired
(`deadline ≤ now`) and the channel is undrained; otherwise `true` with the
handle unchanged.  Returns (result, handle after the call). -/
def aliveStep (h : ProxyHandler) (now : Nat) : Bool × ProxyHandler :=
  if h.deadline ≤ now ∧ h.consumed = false then (false, { h with consumed := true })
  else (true, h)

/-! ## Backend registry (`proxyHandlers`, reverseproxy.go:131-156) -/

/-- One port's `map[string]*proxyHandler` (address → handle). -/
abbrev AddrMap := List (String × ProxyHandler)

/-- `type proxyHandlers map[int]map[string]*proxyHandler`. -/
abbrev ProxyHandlersMap := List (Nat × AddrMap)

/-- Go's `ph[port]` read: a missing port key yields the nil map, which
reads as empty. -/
def lookupPort (ph : ProxyHandlersMap) (port : Nat) : AddrMap :=
  (lookupA ph port).getD []

/-- The `for ipaddress, handler := range ph[port]` loop of
`proxyHandlers.Handler`: return the first handle found alive (its handler),
deleting every handle found dead on the way.  Returns (result, the port's
map after the scan). -/
def scanHandlers (now : Nat) : AddrMap → Option HttpHandler × AddrMap
  | [] => (none, [])
  | (addr, h) :: rest =>
    match aliveStep h now with
    | (true, h2) => (some h2.handler, (addr, h2) :: rest)
    | (false, _) => scanHandlers now rest

/-- `proxyHandlers.Handler(port)` at time `now`: empty (or missing) port
map yields `(nil, false)`; otherwise scan the port's address map, deleting
dead entries in place.  Returns (found handler, registry after the call).
`none` as the first component is Go's `(nil, false)`. -/
def phHandler (ph : ProxyHandlersMap) (port now : Nat) : Option HttpHandler × ProxyHandlersMap :=
  if (lookupPort ph port).isEmpty then (none, ph)
  else
    match scanHandlers now (lookupPort ph port) with
    | (res, rest) => (res, updateA ph port rest)

/-- `proxyHandlers.add(port, ipaddress, h)` at time `now`: create the
port's map if nil, then destructively install `newProxyHandler(h)` under
`ipaddress`. -/
def phAdd (ph : ProxyHandlersMap) (port : Nat) (ipaddress : String) (h : HttpHandler)
    (now : Nat) : ProxyHandlersMap :=
  updateA ph port (updateA (lookupPort ph port) ipaddress (newProxyHandler h now))

/-! ## Domain router (`ReverseProxy`, reverseproxy.go:31-104)

Only the fields the routing logic reads are modelled (`cfg`,
`accessCounterUnit` and the `sync.RWMutex` — lock acquisition brackets
every method and is invisible to the sequential semantics — are omitted). -/

/-- `ReverseProxy`: the insertion-ordered pattern list `domains` and the
pattern → registry map `domainMap`. -/
structure ReverseProxy where
  domains : List String
  domainMap : List (String × ProxyHandlersMap)
deriving Repr

/-- `ReverseProxy.Subdomains()`: Go copies the `domains` slice into a fresh
array and returns the copy; on pure list values the copy is the list
itself. -/
def Subdomains (r : ReverseProxy) : List String :=
  r.domains

/-- `ReverseProxy.FindHandler(subdomain, port)` at time `now`: exact map
lookup of the subdomain first; on a miss, scan `domains` in order and take
the registry of the first pattern that glob-matches (a matching pattern
with no registry — Go's nil check — yields nil); then delegate to
`Handler(port)`.  Returns (found handler, router after the call); the
second component threads the eviction `Handler` performs. -/
def FindHandler (r : ReverseProxy) (subdomain : String) (port now : Nat) :
    Option HttpHandler × ReverseProxy :=
  match lookupA r.domainMap subdomain with
  | some ph =>
    match phHandler ph port now with
    | (res, ph2) => (res, { r with domainMap := updateA r.domainMap subdomain ph2 })
  | none =>
    match r.domains.find? (fun name => pmatchStr name subdomain) with
    | none => (none, r)
    | some name =>
      match lookupA r.domainMap name with
      | none => (none, r)
      | some ph =>
        match phHandler ph port now with
        | (res, ph2) => (res, { r with domainMap := updateA r.domainMap name ph2 })

/-- Modelled from the spec: the administrative `Add` mutation (§4.1) is not
among the available sources — only the `proxyControl` event type, the
registry-level `proxyHandlers.add` and `newProxyHandler` are.  Per the
spec, under exclusive access Add records the pattern, creates the registry
for it if absent, and inserts/replaces the backend handle with a fresh
deadline via the registry-level `add`. -/
def routerAdd (r : ReverseProxy) (subdomain ipaddress : String) (port : Nat)
    (h : HttpHandler) (now : Nat) : ReverseProxy :=
  { domains := if r.domains.contains subdomain then r.domains else r.domains ++ [subdomain],
    domainMap :=
      updateA r.domainMap subdomain
        (phAdd ((lookupA r.domainMap subdomain).getD []) port ipaddress h now) }

/-! ## Authenticated transport (`Transport`, reverseproxy.go:158-210) -/

/-- `http.Cookie` (the fields the core reads). -/
structure Cookie where
  name : String
  value : String
deriving DecidableEq, Repr

/-- `http.Request` (the fields the core reads): method, URL (as its
string), and the cookie header. -/
structure Request where
  method : String
  url : String
  cookies : List Cookie
deriving DecidableEq, Repr

/-- `http.Response` (the fields the core writes). -/
structure Response where
  statusCode : Nat
  body : String
deriving DecidableEq, Repr

/-- The wrapped `http.RoundTripper`'s behaviour on the request under
scrutiny: how long the upstream call takes, and what it returns when
allowed to finish (`Except.error` is a transport error such as connection
refused).  The wrapped transport is assumed to honour context
cancellation, as `net/http.Transport` does: when the derived deadline
elapses first (`Timeout ≤ duration`), the round trip returns a context
error and `ctx.Err() == context.DeadlineExceeded`. -/
structure Upstream where
  duration : Nat
  result : Except String Response
deriving Repr

/-- `http.MethodOptions`. -/
def MethodOptions : String := "OPTIONS"

/-- Modelled from the spec: the name of the authentication cookie
(`AuthCookieName`) is referenced by `Transport.RoundTrip` but its defining
declaration is not among the available sources; per the spec it is a fixed,
configuration-supplied cookie name.  No result depends on its value. -/
def AuthCookieName : String := "feature-proxy-auth"

/-- `req.Cookie(name)`: the first cookie with that name; `none` is Go's
`(nil, http.ErrNoCookie)`. -/
def reqCookie (req : Request) (name : String) : Option Cookie :=
  req.cookies.find? (fun c => c.name == name)

/-- `proxy.Transport`: wrapped round tripper (as its behaviour on the
request under scrutiny), timeout in ticks, subdomain, and the nilable
cookie validator (`some errMsg` is a validation error).  The Go field for
the wrapped round tripper is itself named `Transport`; Lean rejects a
field named after its structure, so it is `Wrapped` here. -/
structure Transport where
  Wrapped : Upstream
  Timeout : Nat
  Subdomain : String
  AuthCookieValidateFunc : Option (Cookie → Option String)

/-- `newTimeoutResponse(subdomain, u)`: the synthetic 504 with body
`fmt.Sprintf("%s upstream timeout: %s", subdomain, u)`. -/
def newTimeoutResponse (subdomain u : String) : Response :=
  { statusCode := 504, body := subdomain ++ " upstream timeout: " ++ u }

/-- `newForbiddenResponse()`: the synthetic 403 with body `"Forbidden"`. -/
def newForbiddenResponse : Response :=
  { statusCode := 403, body := "Forbidden" }

/-- Lines 179-194 of `Transport.RoundTrip`: the timeout branch.  With
`Timeout == 0`, a direct round trip whose response/error go back
unmodified.  With a timeout, the call runs under a context with the
derived deadline: if the deadline elapses before the upstream finishes the
call errors with `ctx.Err() == DeadlineExceeded` and the synthetic 504 is
returned; otherwise response/error go back unmodified.  The result pair is
Go's `(*http.Response, error)`. -/
def timeoutBranch (t : Transport) (req : Request) : Option Response × Option String :=
  if t.Timeout = 0 then
    match t.Wrapped.result with
    | Except.ok resp => (some resp, none)
    | Except.error e => (none, some e)
  else if t.Timeout ≤ t.Wrapped.duration then
    (some (newTimeoutResponse t.Subdomain req.url), none)
  else
    match t.Wrapped.result with
    | Except.ok resp => (some resp, none)
    | Except.error e => (none, some e)

/-- `Transport.RoundTrip(req)` (reverseproxy.go:165-195): with a validator
configured and a non-OPTIONS method, a missing auth cookie or a rejected
one short-circuits to the synthetic 403 (no upstream call); otherwise the
timeout branch runs. -/
def Transport.RoundTrip (t : Transport) (req : Request) : Option Response × Option String :=
  match t.AuthCookieValidateFunc with
  | some validate =>
    if req.method ≠ MethodOptions then
      match reqCookie req AuthCookieName with
      | none => (some newForbiddenResponse, none)
      | some cookie =>
        match validate cookie with
        | some _ => (some newForbiddenResponse, none)
        | none => timeoutBranch t req
    else timeoutBranch t req
  | none => timeoutBranch t req

/-- The ways a request gets past the authentication block of
`Transport.RoundTrip` (lines 168-178) into the timeout branch: no
validator configured, an OPTIONS (preflight) request, or a present cookie
the validator accepts. -/
def authPasses (t : Transport) (req : Request) : Prop :=
  t.AuthCookieValidateFunc = none ∨ req.method = MethodOptions ∨
    ∃ v c, t.AuthCookieValidateFunc = some v ∧
      reqCookie req AuthCookieName = some c ∧ v c = none

/-! ## Theorems: the authenticated transport (claims C3, C4, C7, C8, C10) -/

/-- Helper: a request that passes authentication is handled entirely by
the timeout branch. -/
theorem roundTrip_of_authPasses (t : Transport) (req : Request) (h : authPasses t req) :
    Transport.RoundTrip t req = timeoutBranch t req := by
  rcases h with h | h | ⟨v, c, hv, hc, hvc⟩
  · simp [Transport.RoundTrip, h]
  · cases hval : t.AuthCookieValidateFunc with
    | none => simp [Transport.RoundTrip, hval]
    | some v => simp [Transport.RoundTrip, hval, h]
  · by_cases hm : req.method = MethodOptions
    · simp [Transport.RoundTrip, hv, hm]
    · simp [Transport.RoundTrip, hv, hm, hc, hvc]

/-- C3: with a validator configured, a non-OPTIONS request whose auth
cookie is missing or rejected gets the synthetic 403 Forbidden response,
and the wrapped network transport is never invoked (the result is the same
for every possible wrapped-transport behaviour). -/
theorem roundTrip_auth_reject (t : Transport) (req : Request) (v : Cookie → Option String)
    (hv : t.AuthCookieValidateFunc = some v) (hm : req.method ≠ MethodOptions)
    (hrej : ∀ c, reqCookie req AuthCookieName = some c → v c ≠ none) :
    Transport.RoundTrip t req = (some newForbiddenResponse, none)
    ∧ newForbiddenResponse.statusCode = 403
    ∧ ∀ up : Upstream,
        Transport.RoundTrip { t with Wrapped := up } req = (some newForbiddenResponse, none) := by
  have key : ∀ up : Upstream,
      Transport.RoundTrip { t with Wrapped := up } req = (some newForbiddenResponse, none) := by
    intro up
    cases hc : reqCookie req AuthCookieName with
    | none => simp [Transport.RoundTrip, hv, hm, hc]
    | some c =>
      cases hvc : v c with
      | none => exact absurd hvc (hrej c hc)
      | some e => simp [Transport.RoundTrip, hv, hm, hc, hvc]
  exact ⟨key t.Wrapped, rfl, key⟩

/-- C3 witness: a GET request with no cookie against a validator-equipped
transport is rejected with the synthetic 403. -/
theorem roundTrip_auth_reject_witness :
    Transport.RoundTrip
        ⟨⟨200, Except.ok ⟨200, "hi"⟩⟩, 0, "sub", some (fun _ => some "bad")⟩
        ⟨"GET", "http://sub.example.com/y", []⟩ = (some newForbiddenResponse, none)
    ∧ newForbiddenResponse.statusCode = 403 := by
  have h := roundTrip_auth_reject
    ⟨⟨200, Except.ok ⟨200, "hi"⟩⟩, 0, "sub", some (fun _ => some "bad")⟩
    ⟨"GET", "http://sub.example.com/y", []⟩ (fun _ => some "bad") rfl (by decide)
    (fun c hc => by simp [reqCookie, List.find?] at hc)
  exact ⟨h.1, h.2.1⟩

/-- C4: with a positive configured timeout, when the outbound round trip
does not complete before the derived deadline, the transport returns (with
nil error) the synthetic 504 Gateway Timeout whose body contains both the
subdomain and the request URL. -/
theorem roundTrip_upstream_timeout (t : Transport) (req : Request)
    (hpass : authPasses t req) (hT : 0 < t.Timeout) (hd : t.Timeout ≤ t.Wrapped.duration) :
    Transport.RoundTrip t req = (some (newTimeoutResponse t.Subdomain req.url), none)
    ∧ (newTimeoutResponse t.Subdomain req.url).statusCode = 504
    ∧ (∃ after, (newTimeoutResponse t.Subdomain req.url).body = t.Subdomain ++ after)
    ∧ (∃ before, (newTimeoutResponse t.Subdomain req.url).body = before ++ req.url) := by
  refine ⟨?_, rfl, ⟨" upstream timeout: " ++ req.url, ?_⟩,
          ⟨t.Subdomain ++ " upstream timeout: ", rfl⟩⟩
  · rw [roundTrip_of_authPasses t req hpass]
    have h0 : ¬ t.Timeout = 0 := by omega
    simp [timeoutBranch, h0, hd]
  · simp [newTimeoutResponse, String.append_assoc]

/-- C4 witness: timeout 50 against an upstream that needs 200 ticks yields
the synthetic 504 naming the subdomain and the URL. -/
theorem roundTrip_upstream_timeout_witness :
    Transport.RoundTrip ⟨⟨200, Except.ok ⟨200, "hi"⟩⟩, 50, "sub", none⟩
        ⟨"GET", "http://sub.example.com/y", []⟩ =
      (some (newTimeoutResponse "sub" "http://sub.example.com/y"), none)
    ∧ (newTimeoutResponse "sub" "http://sub.example.com/y").body =
        "sub upstream timeout: http://sub.example.com/y" := by
  have h := roundTrip_upstream_timeout ⟨⟨200, Except.ok ⟨200, "hi"⟩⟩, 50, "sub", none⟩
    ⟨"GET", "http://sub.example.com/y", []⟩ (Or.inl rfl) (by decide) (by decide)
  exact ⟨h.1, by decide⟩

/-- C7: an OPTIONS request bypasses cookie validation — whatever the
validator and whatever the cookies (even none at all), processing proceeds
to the timeout branch, so the authentication check produces no 403. -/
theorem roundTrip_options_bypass (t : Transport) (req : Request)
    (hm : req.method = MethodOptions) :
    Transport.RoundTrip t req = timeoutBranch t req
    ∧ ∀ cs : List Cookie,
        Transport.RoundTrip t { req with cookies := cs } = timeoutBranch t req := by
  have key : ∀ cs : List Cookie,
      Transport.RoundTrip t { req with cookies := cs } = timeoutBranch t req := by
    intro cs
    cases hval : t.AuthCookieValidateFunc with
    | none => simp [Transport.RoundTrip, hval]; rfl
    | some v => simp [Transport.RoundTrip, hval, hm]; rfl
  exact ⟨key req.cookies, key⟩

/-- C7 witness: an OPTIONS request with no cookie against a
validator-equipped transport reaches the timeout branch (and here the
upstream response, not a 403). -/
theorem roundTrip_options_bypass_witness :
    Transport.RoundTrip ⟨⟨200, Except.ok ⟨200, "hi"⟩⟩, 0, "sub", some (fun _ => some "bad")⟩
        ⟨"OPTIONS", "http://sub.example.com/y", []⟩ =
      timeoutBranch ⟨⟨200, Except.ok ⟨200, "hi"⟩⟩, 0, "sub", some (fun _ => some "bad")⟩
        ⟨"OPTIONS", "http://sub.example.com/y", []⟩ :=
  (roundTrip_options_bypass
    ⟨⟨200, Except.ok ⟨200, "hi"⟩⟩, 0, "sub", some (fun _ => some "bad")⟩
    ⟨"OPTIONS", "http://sub.example.com/y", []⟩ rfl).1

/-- C8: authentication failure and timeout are the only synthesized
responses — when authentication passes and the upstream completes before
any configured deadline, a transport error is returned unmodified
(`(nil, err)`) and a successful response is returned unmodified
(`(resp, nil)`). -/
theorem roundTrip_error_passthrough (t : Transport) (req : Request)
    (hpass : authPasses t req) (hfast : t.Timeout = 0 ∨ t.Wrapped.duration < t.Timeout) :
    (∀ e, t.Wrapped.result = Except.error e → Transport.RoundTrip t req = (none, some e))
    ∧ (∀ resp, t.Wrapped.result = Except.ok resp → Transport.RoundTrip t req = (some resp, none)) := by
  constructor
  · intro e he
    rw [roundTrip_of_authPasses t req hpass]
    rcases hfast with h0 | hlt
    · simp [timeoutBranch, h0, he]
    · have h0 : ¬ t.Timeout = 0 := by omega
      have hnd : ¬ t.Timeout ≤ t.Wrapped.duration := by omega
      simp [timeoutBranch, h0, hnd, he]
  · intro resp hr
    rw [roundTrip_of_authPasses t req hpass]
    rcases hfast with h0 | hlt
    · simp [timeoutBranch, h0, hr]
    · have h0 : ¬ t.Timeout = 0 := by omega
      have hnd : ¬ t.Timeout ≤ t.Wrapped.duration := by omega
      simp [timeoutBranch, h0, hnd, hr]

/-- C8 witness: a connection-refused error from the upstream is handed
back unmodified, with no synthesized response. -/
theorem roundTrip_error_passthrough_witness :
    Transport.RoundTrip ⟨⟨10, Except.error "connection refused"⟩, 50, "sub", none⟩
        ⟨"GET", "http://sub.example.com/y", []⟩ = (none, some "connection refused") :=
  (roundTrip_error_passthrough ⟨⟨10, Except.error "connection refused"⟩, 50, "sub", none⟩
      ⟨"GET", "http://sub.example.com/y", []⟩ (Or.inl rfl) (Or.inr (by decide))).1
    "connection refused" rfl

/-- C10: with no validator configured, no authentication check happens for
any method — every request (cookie or not, OPTIONS or not) goes straight
to the timeout branch, so the authentication code synthesizes no 403. -/
theorem roundTrip_no_validator (t : Transport) (req : Request)
    (h : t.AuthCookieValidateFunc = none) :
    Transport.RoundTrip t req = timeoutBranch t req := by
  simp [Transport.RoundTrip, h]

/-- C10 witness: a cookie-less GET against a validator-less transport gets
the upstream response untouched. -/
theorem roundTrip_no_validator_witness :
    Transport.RoundTrip ⟨⟨10, Except.ok ⟨200, "hi"⟩⟩, 50, "sub", none⟩
        ⟨"GET", "http://sub.example.com/y", []⟩ =
      timeoutBranch ⟨⟨10, Except.ok ⟨200, "hi"⟩⟩, 50, "sub", none⟩
        ⟨"GET", "http://sub.example.com/y", []⟩ :=
  roundTrip_no_validator ⟨⟨10, Except.ok ⟨200, "hi"⟩⟩, 50, "sub", none⟩
    ⟨"GET", "http://sub.example.com/y", []⟩ rfl

/-! ## Helper lemmas on the association-list map model -/

/-- Reading back the key just written: `m[k] = v; _, ok := m[k]` sees `v`. -/
theorem lookupA_updateA_self {κ α : Type} [BEq κ] [LawfulBEq κ]
    (m : List (κ × α)) (k : κ) (v : α) : lookupA (updateA m k v) k = some v := by
  induction m with
  | nil => simp [lookupA, updateA, List.find?]
  | cons e rest ih =>
    by_cases h : e.1 == k
    · simp [updateA, h, lookupA, List.find?]
    · simp only [updateA, if_neg h]
      simpa [lookupA, List.find?, h] using ih

/-- Port-map version of `lookupA_updateA_self`. -/
theorem lookupPort_updateA_self (ph : ProxyHandlersMap) (port : Nat) (l : AddrMap) :
    lookupPort (updateA ph port l) port = l := by
  simp [lookupPort, lookupA_updateA_self]

/-- `find?` returns the first element satisfying the predicate: splitting
the list at that element. -/
theorem find?_first_split {α : Type} (p : α → Bool) (l1 : List α) (a : α) (l2 : List α)
    (ha : p a = true) (h1 : ∀ x ∈ l1, p x = false) :
    (l1 ++ a :: l2).find? p = some a := by
  induction l1 with
  | nil => simp [List.find?, ha]
  | cons b rest ih =>
    have hb : p b = false := h1 b (by simp)
    simp only [List.cons_append, List.find?, hb]
    exact ih (fun x hx => h1 x (by simp [hx]))

/-! ## Theorems: backend handles and the registry (claims C2, C5, C6) -/

/-- The scan loop of `proxyHandlers.Handler` on a port map none of whose
timers has been drained: it returns the handler of the first entry whose
deadline has not passed, and deletes exactly the dead entries it walked
over on the way there. -/
theorem scanHandlers_spec (now : Nat) (l : AddrMap)
    (hwf : ∀ e ∈ l, e.2.consumed = false) :
    scanHandlers now l =
      ((l.find? (fun e => decide (now < e.2.deadline))).map (fun e => e.2.handler),
       l.dropWhile (fun e => decide (e.2.deadline ≤ now))) := by
  induction l with
  | nil => simp [scanHandlers]
  | cons e rest ih =>
    have hc : e.2.consumed = false := hwf e (by simp)
    by_cases hd : e.2.deadline ≤ now
    · have : aliveStep e.2 now = (false, { e.2 with consumed := true }) := by
        simp [aliveStep, hd, hc]
      have hfind : (decide (now < e.2.deadline)) = false := by
        simp; omega
      have hdrop : (decide (e.2.deadline ≤ now)) = true := by simpa using hd
      simp only [scanHandlers, this, List.find?, hfind, List.dropWhile, hdrop]
      exact ih (fun x hx => hwf x (by simp [hx]))
    · have : aliveStep e.2 now = (true, e.2) := by
        simp [aliveStep, hd]
      have hfind : (decide (now < e.2.deadline)) = true := by simp; omega
      have hdrop : (decide (e.2.deadline ≤ now)) = false := by simpa using hd
      simp [scanHandlers, this, List.find?, hfind, List.dropWhile, hdrop]

/-- C2: `proxyHandlers.Handler(port)` walks the port's address map in
iteration order (here: an arbitrary list, i.e. an arbitrary order) and
returns the handler of the first entry found alive; every entry found
dead during the scan is deleted from the mapping; if no entry for the port
is alive the result is none — so a lookup after TTL expiry with no renewal
removes the dead handle and, with no live backend left, reports not-found.
The hypothesis says no handle's timer channel has been drained, which
holds for every registry state the code constructs (`add` installs
undrained handles and the scan deletes a handle the moment its timer is
observed fired). -/
theorem registry_resolve (ph : ProxyHandlersMap) (port now : Nat)
    (hwf : ∀ e ∈ lookupPort ph port, e.2.consumed = false) :
    (phHandler ph port now).1 =
      ((lookupPort ph port).find? (fun e => decide (now < e.2.deadline))).map
        (fun e => e.2.handler)
    ∧ lookupPort (phHandler ph port now).2 port =
      (lookupPort ph port).dropWhile (fun e => decide (e.2.deadline ≤ now)) := by
  by_cases hempty : (lookupPort ph port).isEmpty
  · have hnil : lookupPort ph port = [] := by
      cases h : lookupPort ph port with
      | nil => rfl
      | cons a l => rw [h] at hempty; simp [List.isEmpty] at hempty
    simp [phHandler, hempty, hnil]
  · have hscan := scanHandlers_spec now (lookupPort ph port) hwf
    simp only [phHandler]
    rw [if_neg hempty, hscan]
    exact ⟨rfl, lookupPort_updateA_self _ _ _⟩

/-- C2 witness: a single handle registered with deadline 30, looked up at
time 31: the lookup reports not-found and the dead handle is removed. -/
theorem registry_resolve_witness :
    (phHandler [(80, [("10.0.0.1", ⟨1, 30, false⟩)])] 80 31).1 = none
    ∧ lookupPort (phHandler [(80, [("10.0.0.1", ⟨1, 30, false⟩)])] 80 31).2 80 = [] := by
  have h := registry_resolve [(80, [("10.0.0.1", ⟨1, 30, false⟩)])] 80 31 (by decide)
  exact ⟨h.1.trans (by decide), h.2.trans (by decide)⟩

/-- C6 (divergence of the code from the claim): `alive()` is implemented
as a non-blocking receive from a one-shot `time.Timer` channel, not as a
pure deadline comparison.  On a handle registered at time 0 (deadline 30)
and not renewed, at time 31 the first `alive()` call returns false and
drains the channel, and the second call on the very same expired handle
returns true — repeated calls do NOT all return false. -/
theorem alive_expired_repeated_calls :
    (newProxyHandler 7 0).deadline ≤ 31
    ∧ (aliveStep (newProxyHandler 7 0) 31).1 = false
    ∧ (aliveStep ((aliveStep (newProxyHandler 7 0) 31).2) 31).1 = true := by decide

/-- C5 counterexample: with a live backend `10.0.0.1` (handler 1) already
registered for ("app", 8080), Add of `10.0.0.2` (handler 2) followed
immediately by a lookup (no TTL elapsed) returns handler 1 — the scan
returns the first live entry in iteration order, not the handler just
added. -/
theorem add_then_lookup_counterexample :
    (FindHandler
        (routerAdd ⟨["app"], [("app", [(8080, [("10.0.0.1", ⟨1, 100, false⟩)])])]⟩
          "app" "10.0.0.2" 8080 2 50)
        "app" 8080 50).1 = some 1
    ∧ some (1 : HttpHandler) ≠ some (2 : HttpHandler) := by decide

/-- A map write under a key that is the only key of the map (or the map is
empty) puts the new entry in front. -/
theorem updateA_all_same {α : Type} (l : List (String × α)) (k : String) (v : α)
    (h : ∀ e ∈ l, e.1 = k) : updateA l k v = (k, v) :: l.tail := by
  cases l with
  | nil => rfl
  | cons e rest =>
    have : e.1 = k := h e (by simp)
    simp [updateA, this]

/-- C5 (amended): `add` is a destructive replace — after
`add(port, address, handler)` the (port, address) slot holds exactly the
fresh full-TTL handle, whatever was there before; and an Add followed
immediately by a lookup (before the TTL elapses) returns the added handler
provided the added address is the only backend registered for that
(subdomain, port). -/
theorem add_replace_and_sole_lookup (ph : ProxyHandlersMap) (port : Nat) (addr : String)
    (hdl : HttpHandler) (now : Nat) :
    lookupA (lookupPort (phAdd ph port addr hdl now) port) addr = some (newProxyHandler hdl now)
    ∧ ∀ (r : ReverseProxy) (sub : String) (now2 : Nat),
        (∀ e ∈ lookupPort ((lookupA r.domainMap sub).getD []) port, e.1 = addr) →
        now2 < now + proxyHandlerLifetime →
        (FindHandler (routerAdd r sub addr port hdl now) sub port now2).1 = some hdl := by
  constructor
  · rw [phAdd, lookupPort_updateA_self, lookupA_updateA_self]
  · intro r sub now2 hsole hfresh
    have hmap : lookupA (routerAdd r sub addr port hdl now).domainMap sub =
        some (phAdd ((lookupA r.domainMap sub).getD []) port addr hdl now) := by
      simp [routerAdd, lookupA_updateA_self]
    have hport : lookupPort (phAdd ((lookupA r.domainMap sub).getD []) port addr hdl now) port =
        (addr, newProxyHandler hdl now) ::
          (lookupPort ((lookupA r.domainMap sub).getD []) port).tail := by
      rw [phAdd, lookupPort_updateA_self, updateA_all_same _ _ _ hsole]
    have hna : ¬ now + proxyHandlerLifetime ≤ now2 := by omega
    have halive : aliveStep ⟨hdl, now + proxyHandlerLifetime, false⟩ now2 =
        (true, ⟨hdl, now + proxyHandlerLifetime, false⟩) := by
      simp [aliveStep, hna]
    simp only [FindHandler, hmap, phHandler, hport]
    simp [scanHandlers, newProxyHandler, halive]

/-- C5 witness (amended claim): Add of the sole backend for ("app", 8080)
at time 0 followed by a lookup at time 10 returns the added handler, and
the slot holds the fresh full-TTL handle. -/
theorem add_replace_and_sole_lookup_witness :
    lookupA (lookupPort (phAdd [] 8080 "10.0.0.1" 5 0) 8080) "10.0.0.1" =
      some (newProxyHandler 5 0)
    ∧ (FindHandler (routerAdd ⟨[], []⟩ "10.0.0.1-sub" "10.0.0.1" 8080 5 0)
        "10.0.0.1-sub" 8080 10).1 = some 5 := by
  have h := add_replace_and_sole_lookup [] 8080 "10.0.0.1" 5 0
  exact ⟨h.1, h.2 ⟨[], []⟩ "10.0.0.1-sub" 10 (by decide) (by decide)⟩

/-! ## Theorems: the domain router (claim C1) -/

/-- C1: `FindHandler(subdomain, port)` resolves by exact map lookup first:
on an exact hit the result is that registry's port resolution, whatever the
pattern list says.  Only on an exact miss does it scan `domains` in
registration order, and the result is the port resolution of the registry
of the *first* glob-matching pattern (later matching patterns — more or
less specific — are irrelevant, and a chosen registry with no live handle
gives none, with no fallback); with no matching pattern the result is
none. -/
theorem findHandler_order (r : ReverseProxy) (sub : String) (port now : Nat) :
    (∀ ph, lookupA r.domainMap sub = some ph →
        (FindHandler r sub port now).1 = (phHandler ph port now).1)
    ∧ (lookupA r.domainMap sub = none →
        ∀ d1 p d2, r.domains = d1 ++ p :: d2 → pmatchStr p sub = true →
          (∀ q ∈ d1, pmatchStr q sub = false) →
          (FindHandler r sub port now).1 =
            (match lookupA r.domainMap p with
             | none => none
             | some ph => (phHandler ph port now).1))
    ∧ (lookupA r.domainMap sub = none →
        (∀ q ∈ r.domains, pmatchStr q sub = false) →
        (FindHandler r sub port now).1 = none) := by
  refine ⟨?_, ?_, ?_⟩
  · intro ph h
    simp [FindHandler, h]
  · intro h d1 p d2 hd hp h1
    have hfind : r.domains.find? (fun name => pmatchStr name sub) = some p := by
      rw [hd]; exact find?_first_split _ d1 p d2 hp h1
    simp only [FindHandler, h, hfind]
    cases hm : lookupA r.domainMap p with
    | none => simp
    | some ph => simp
  · intro h hall
    have hfind : r.domains.find? (fun name => pmatchStr name sub) = none := by
      rw [List.find?_eq_none]
      intro q hq
      simp [hall q hq]
    simp [FindHandler, h, hfind]

/-- C1 witness: subdomain "feature-x" has no exact registry; of the two
patterns, registered in the order "feature-*" then "*", both glob-match,
and the lookup resolves through the first one's registry. -/
theorem findHandler_order_witness :
    (FindHandler
        ⟨["feature-*", "*"],
         [("feature-*", [(80, [("10.0.0.1", ⟨1, 100, false⟩)])]),
          ("*", [(80, [("10.0.0.2", ⟨2, 100, false⟩)])])]⟩
        "feature-x" 80 0).1 = some 1 := by
  have h := (findHandler_order
      ⟨["feature-*", "*"],
       [("feature-*", [(80, [("10.0.0.1", ⟨1, 100, false⟩)])]),
        ("*", [(80, [("10.0.0.2", ⟨2, 100, false⟩)])])]⟩
      "feature-x" 80 0).2.1 (by decide) [] "feature-*" ["*"] rfl (by decide)
      (fun q hq => by simp at hq)
  exact h.trans (by decide)

/-! ## Robustness of the fueled matcher

The lemmas below discharge the modelling debt of the fuel arguments: every
matcher loop consumes pattern characters, so above the stated bound the
fuel does not influence the result — the wrappers (`matchRanges`,
`matchChunk`, `pmatch`) therefore compute exactly the limits of their
loops, i.e. Go's (always-terminating) loops. -/

/-- `getEsc` consumes at least one character. -/
theorem getEsc_length (l : List Char) (c : Char) (rest : List Char)
    (h : getEsc l = some (c, rest)) : rest.length < l.length := by
  cases l with
  | nil => simp [getEsc] at h
  | cons a t =>
    simp only [getEsc] at h
    split at h
    · simp at h
    · split at h
      · split at h
        · simp at h
        · split at h
          · simp at h
          · simp only [Option.some.injEq, Prod.mk.injEq] at h
            obtain ⟨-, rfl⟩ := h
            simp only [List.length_cons]
            omega
      · split at h
        · simp at h
        · simp only [Option.some.injEq, Prod.mk.injEq] at h
          obtain ⟨-, rfl⟩ := h
          simp only [List.length_cons]
          omega

/-- The range loop only consumes its chunk: the returned rest is a suffix
no longer than the input. -/
theorem matchRangesF_le (f : Nat) :
    ∀ (r : Char) (m : Bool) (n : Nat) (chunk out : List Char) (b : Bool),
      matchRangesF f r m n chunk = some (b, out) → out.length ≤ chunk.length := by
  induction f with
  | zero => intro r m n chunk out b h; simp [matchRangesF] at h
  | succ g ih =>
    intro r m n chunk out b h
    simp only [matchRangesF] at h
    split at h
    · simp only [Option.some.injEq, Prod.mk.injEq] at h
      obtain ⟨-, rfl⟩ := h
      simp
    · cases hge : getEsc chunk with
      | none => simp [hge] at h
      | some pr =>
        obtain ⟨lo, ch1⟩ := pr
        simp only [hge] at h
        have l1 := getEsc_length _ _ _ hge
        cases ch1 with
        | nil => simp at h
        | cons c1 ch2 =>
          simp only [List.length_cons] at l1
          by_cases hc1 : c1 = '-'
          · simp only [hc1, if_pos rfl] at h
            cases hge2 : getEsc ch2 with
            | none => simp [hge2] at h
            | some pr2 =>
              obtain ⟨hi, ch3⟩ := pr2
              simp only [hge2] at h
              have l2 := getEsc_length _ _ _ hge2
              have := ih r (m || decide (lo ≤ r ∧ r ≤ hi)) (n + 1) ch3 out b h
              omega
          · simp only [if_neg hc1] at h
            have := ih r (m || decide (lo ≤ r ∧ r ≤ lo)) (n + 1) (c1 :: ch2) out b h
            simp only [List.length_cons] at this
            omega

/-- Above the `chunk.length` bound the fuel does not influence the range
loop's result. -/
theorem matchRangesF_fuel :
    ∀ (N : Nat) (chunk : List Char), chunk.length ≤ N →
      ∀ (r : Char) (m : Bool) (n f1 f2 : Nat), chunk.length < f1 → chunk.length < f2 →
        matchRangesF f1 r m n chunk = matchRangesF f2 r m n chunk := by
  intro N
  induction N with
  | zero =>
    intro chunk hch r m n f1 f2 h1 h2
    have hnil : chunk = [] := List.eq_nil_of_length_eq_zero (by omega)
    subst hnil
    obtain ⟨g1, rfl⟩ : ∃ g, f1 = g + 1 := ⟨f1 - 1, by omega⟩
    obtain ⟨g2, rfl⟩ : ∃ g, f2 = g + 1 := ⟨f2 - 1, by omega⟩
    simp [matchRangesF, getEsc]
  | succ N ih =>
    intro chunk hch r m n f1 f2 h1 h2
    obtain ⟨g1, rfl⟩ : ∃ g, f1 = g + 1 := ⟨f1 - 1, by omega⟩
    obtain ⟨g2, rfl⟩ : ∃ g, f2 = g + 1 := ⟨f2 - 1, by omega⟩
    simp only [matchRangesF]
    split
    · rfl
    · cases hge : getEsc chunk with
      | none => simp [hge]
      | some pr =>
        obtain ⟨lo, ch1⟩ := pr
        simp only [hge]
        have l1 := getEsc_length _ _ _ hge
        cases ch1 with
        | nil => rfl
        | cons c1 ch2 =>
          simp only [List.length_cons] at l1
          by_cases hc1 : c1 = '-'
          · simp only [hc1, if_pos rfl]
            cases hge2 : getEsc ch2 with
            | none => simp [hge2]
            | some pr2 =>
              obtain ⟨hi, ch3⟩ := pr2
              simp only [hge2]
              have l2 := getEsc_length _ _ _ hge2
              exact ih ch3 (by omega) r _ _ g1 g2 (by omega) (by omega)
          · simp only [if_neg hc1]
            exact ih (c1 :: ch2) (by simp only [List.length_cons]; omega) r _ _ g1 g2
              (by simp only [List.length_cons]; omega) (by simp only [List.length_cons]; omega)

/-- Any sufficient fuel computes `matchRanges`. -/
theorem matchRangesF_eq (f : Nat) (r : Char) (m : Bool) (n : Nat) (chunk : List Char)
    (h : chunk.length < f) : matchRangesF f r m n chunk = matchRanges r m n chunk :=
  matchRangesF_fuel chunk.length chunk le_rfl r m n f (chunk.length + 1) h (by omega)

/-- Above the `chunk.length` bound the fuel does not influence
`matchChunk`'s loop. -/
theorem matchChunkF_fuel :
    ∀ (N : Nat) (chunk : List Char), chunk.length ≤ N →
      ∀ (s : List Char) (failed : Bool) (f1 f2 : Nat), chunk.length < f1 → chunk.length < f2 →
        matchChunkF f1 chunk s failed = matchChunkF f2 chunk s failed := by
  intro N
  induction N with
  | zero =>
    intro chunk hch s failed f1 f2 h1 h2
    have hnil : chunk = [] := List.eq_nil_of_length_eq_zero (by omega)
    subst hnil
    obtain ⟨g1, rfl⟩ : ∃ g, f1 = g + 1 := ⟨f1 - 1, by omega⟩
    obtain ⟨g2, rfl⟩ : ∃ g, f2 = g + 1 := ⟨f2 - 1, by omega⟩
    simp [matchChunkF]
  | succ N ih =>
    intro chunk hch s failed f1 f2 h1 h2
    obtain ⟨g1, rfl⟩ : ∃ g, f1 = g + 1 := ⟨f1 - 1, by omega⟩
    obtain ⟨g2, rfl⟩ : ∃ g, f2 = g + 1 := ⟨f2 - 1, by omega⟩
    cases chunk with
    | nil => simp [matchChunkF]
    | cons c ch =>
      have hb : ch.length ≤ N := by simp only [List.length_cons] at hch; omega
      have hb1 : ch.length < g1 := by simp only [List.length_cons] at h1; omega
      have hb2 : ch.length < g2 := by simp only [List.length_cons] at h2; omega
      simp only [matchChunkF]
      split
      · -- c = '[' : the class branch
        split
        · rfl
        · rename_i m ch2 heq
          have hle : ch2.length ≤
              (if (ch.head? == some '^') = true then ch.tail else ch).length :=
            matchRangesF_le _ _ _ _ _ _ _ heq
          have hX : (if (ch.head? == some '^') = true then ch.tail else ch).length ≤
              ch.length := by
            split <;> simp [List.length_tail]
          exact ih ch2 (by omega) _ _ g1 g2 (by omega) (by omega)
      · split
        · -- c = '?'
          split
          · exact ih ch hb _ _ g1 g2 hb1 hb2
          · split
            · exact ih ch hb _ _ g1 g2 hb1 hb2
            · exact ih ch hb _ _ g1 g2 hb1 hb2
        · split
          · -- c = '\\'
            split
            · rfl
            · rename_i d ch2
              have hb' : ch2.length ≤ N := by
                simp only [List.length_cons] at hb; omega
              have hb1' : ch2.length < g1 := by
                simp only [List.length_cons] at hb1; omega
              have hb2' : ch2.length < g2 := by
                simp only [List.length_cons] at hb2; omega
              split
              · exact ih ch2 hb' _ _ g1 g2 hb1' hb2'
              · split
                · exact ih ch2 hb' _ _ g1 g2 hb1' hb2'
                · exact ih ch2 hb' _ _ g1 g2 hb1' hb2'
          · -- default
            split
            · exact ih ch hb _ _ g1 g2 hb1 hb2
            · split
              · exact ih ch hb _ _ g1 g2 hb1 hb2
              · exact ih ch hb _ _ g1 g2 hb1 hb2

/-- Any sufficient fuel computes `matchChunk`. -/
theorem matchChunkF_eq (f : Nat) (chunk s : List Char) (failed : Bool)
    (h : chunk.length < f) : matchChunkF f chunk s failed = matchChunk chunk s failed :=
  matchChunkF_fuel chunk.length chunk le_rfl s failed f (chunk.length + 1) h (by omega)

/-- Unfolding `stripStars` at a non-star head. -/
theorem stripStars_cons_ne (c : Char) (t : List Char) (hc : c ≠ '*') :
    stripStars (c :: t) = (false, c :: t) := by
  rw [stripStars.eq_def]
  split
  · rename_i rest heq
    injection heq with h1 h2
    exact absurd h1 hc
  · rfl

/-- Star stripping only removes characters. -/
theorem stripStars_le (l : List Char) : (stripStars l).2.length ≤ l.length := by
  induction l with
  | nil => exact le_rfl
  | cons c t ih =>
    by_cases hc : c = '*'
    · subst hc
      simp only [stripStars, List.length_cons]
      omega
    · rw [stripStars_cons_ne c t hc]

/-- If a leading star was stripped, at least one character went away. -/
theorem stripStars_lt_of_star (l : List Char) (h : (stripStars l).1 = true) :
    (stripStars l).2.length < l.length := by
  cases l with
  | nil => simp [stripStars.eq_def] at h
  | cons c t =>
    by_cases hc : c = '*'
    · subst hc
      have := stripStars_le t
      simp only [stripStars, List.length_cons]
      omega
    · rw [stripStars_cons_ne c t hc] at h
      simp at h

/-- With no leading star the pattern is untouched. -/
theorem stripStars_eq_of_not_star (l : List Char) (h : (stripStars l).1 = false) :
    (stripStars l).2 = l := by
  cases l with
  | nil => rfl
  | cons c t =>
    by_cases hc : c = '*'
    · subst hc; simp [stripStars] at h
    · rw [stripStars_cons_ne c t hc]

/-- A non-star head cannot have been produced by star stripping returning
`false` on a star head. -/
theorem stripStars_head_ne (c : Char) (t : List Char)
    (h : (stripStars (c :: t)).1 = false) : c ≠ '*' := by
  intro hc
  subst hc
  simp [stripStars] at h

/-- Chunk splitting is a partition of the characters. -/
theorem splitChunk_length :
    ∀ (n : Nat) (l : List Char), l.length ≤ n →
      ∀ ir, (splitChunk ir l).1.length + (splitChunk ir l).2.length = l.length := by
  intro n
  induction n with
  | zero =>
    intro l hl ir
    have : l = [] := List.eq_nil_of_length_eq_zero (by omega)
    subst this
    rfl
  | succ n ih =>
    intro l hl ir
    cases l with
    | nil => rfl
    | cons c t =>
      rw [splitChunk.eq_def]
      split
      · rename_i heq
        exact absurd heq (by simp)
      · rename_i c2 t2 heq
        injection heq with h1 h2
        subst h1
        subst h2
        split
        · simp
        · split
          · split
            · simp
            · rename_i d t3
              have := ih t3 (by simp only [List.length_cons] at hl; omega) ir
              simp only [List.length_cons]
              omega
          · have := ih t (by simp only [List.length_cons] at hl; omega)
              (if c = '[' then true else if c = ']' then false else ir)
            simp only [List.length_cons]
            omega

/-- The chunk is nonempty whenever splitting does not stop immediately at
a star. -/
theorem splitChunk_ne_nil (c : Char) (t : List Char) (ir : Bool)
    (h : ¬(c = '*' ∧ ir = false)) : (splitChunk ir (c :: t)).1 ≠ [] := by
  rw [splitChunk.eq_def]
  split
  · rename_i heq
    exact absurd heq (by simp)
  · rename_i c2 t2 heq
    injection heq with h1 h2
    subst h1
    subst h2
    split
    · rename_i hcontra
      exact absurd hcontra h
    · split
      · split
        · simp
        · simp
      · simp

/-- Unless the pattern is a pure trailing-star chunk (star with empty
chunk), one outer-loop iteration strictly shrinks the pattern. -/
theorem scanChunk_rest_lt (pattern : List Char) (hne : pattern ≠ []) :
    ((scanChunk pattern).1 = true ∧ (scanChunk pattern).2.1 = [])
    ∨ (scanChunk pattern).2.2.length < pattern.length := by
  cases hstar : (stripStars pattern).1 with
  | true =>
    by_cases hchunk : (splitChunk false (stripStars pattern).2).1 = []
    · exact Or.inl ⟨by simp [scanChunk, hstar], by simp [scanChunk, hchunk]⟩
    · right
      have hlt := stripStars_lt_of_star pattern hstar
      have hsplit := splitChunk_length (stripStars pattern).2.length (stripStars pattern).2
        le_rfl false
      simp only [scanChunk]
      omega
  | false =>
    right
    have heq := stripStars_eq_of_not_star pattern hstar
    cases hp : pattern with
    | nil => exact absurd hp hne
    | cons c t =>
      have hc : c ≠ '*' := stripStars_head_ne c t (by rw [← hp]; exact hstar)
      have hchunk : (splitChunk false (c :: t)).1 ≠ [] :=
        splitChunk_ne_nil c t false (by simp [hc])
      have hsplit := splitChunk_length (c :: t).length (c :: t) le_rfl false
      have hpos : 0 < (splitChunk false (c :: t)).1.length :=
        List.length_pos.mpr hchunk
      simp only [scanChunk, hp] at heq ⊢
      rw [heq]
      omega

/-- Above the `pattern.length` bound the fuel does not influence the outer
match loop. -/
theorem pmatchF_fuel :
    ∀ (N : Nat) (pattern : List Char), pattern.length ≤ N →
      ∀ (name : List Char) (f1 f2 : Nat), pattern.length < f1 → pattern.length < f2 →
        pmatchF f1 pattern name = pmatchF f2 pattern name := by
  intro N
  induction N with
  | zero =>
    intro pattern hp name f1 f2 h1 h2
    have : pattern = [] := List.eq_nil_of_length_eq_zero (by omega)
    subst this
    obtain ⟨g1, rfl⟩ : ∃ g, f1 = g + 1 := ⟨f1 - 1, by omega⟩
    obtain ⟨g2, rfl⟩ : ∃ g, f2 = g + 1 := ⟨f2 - 1, by omega⟩
    rfl
  | succ N ih =>
    intro pattern hp name f1 f2 h1 h2
    obtain ⟨g1, rfl⟩ : ∃ g, f1 = g + 1 := ⟨f1 - 1, by omega⟩
    obtain ⟨g2, rfl⟩ : ∃ g, f2 = g + 1 := ⟨f2 - 1, by omega⟩
    cases pattern with
    | nil => rfl
    | cons p pr =>
      have hsc := scanChunk_rest_lt (p :: pr) (by simp)
      simp only [pmatchF]
      split
      · rfl
      · rename_i hcond
        have hlt : (scanChunk (p :: pr)).2.2.length < (p :: pr).length := by
          rcases hsc with ⟨hs, hc⟩ | hlt
          · exact absurd (by simp [hs, hc]) hcond
          · exact hlt
        have hbN : (scanChunk (p :: pr)).2.2.length ≤ N := by
          simp only [List.length_cons] at hlt hp; omega
        have hb1 : (scanChunk (p :: pr)).2.2.length < g1 := by
          simp only [List.length_cons] at hlt h1; omega
        have hb2 : (scanChunk (p :: pr)).2.2.length < g2 := by
          simp only [List.length_cons] at hlt h2; omega
        split
        · rfl
        · split
          · exact ih _ hbN _ g1 g2 hb1 hb2
          · split
            · split
              · rfl
              · exact ih _ hbN _ g1 g2 hb1 hb2
            · rfl

/-- Any sufficient fuel computes `pmatch`; in particular the Go loop,
which consumes at least one pattern character per iteration, never runs
out of the wrapper's fuel. -/
theorem pmatchF_eq (f : Nat) (pattern name : List Char) (h : pattern.length < f) :
    pmatchF f pattern name = pmatch pattern name :=
  pmatchF_fuel pattern.length pattern le_rfl name f (pattern.length + 1) h (by omega)

/-! ## The registry well-formedness invariant

`registry_resolve` (claim C2) assumes no stored handle has a drained timer
channel.  The lemmas below show the code maintains exactly that: `add`
installs undrained handles, and the `Handler` scan deletes a handle the
moment its timer is observed fired, so an observed (drained) handle never
stays in the registry. -/

/-- A handle that reports alive is returned unchanged by `alive()`. -/
theorem aliveStep_true_eq (h h2 : ProxyHandler) (now : Nat)
    (heq : aliveStep h now = (true, h2)) : h2 = h := by
  simp only [aliveStep] at heq
  split at heq
  · simp at heq
  · simp only [Prod.mk.injEq] at heq
    exact heq.2.symm

/-- A map write adds the written pair and otherwise keeps entries of the
old map. -/
theorem updateA_mem {κ α : Type} [BEq κ] (l : List (κ × α)) (k : κ) (v : α)
    (e : κ × α) (he : e ∈ updateA l k v) : e = (k, v) ∨ e ∈ l := by
  induction l with
  | nil => simpa [updateA] using he
  | cons f rest ih =>
    simp only [updateA] at he
    split at he
    · rcases List.mem_cons.mp he with h | h
      · exact Or.inl h
      · exact Or.inr (List.mem_cons_of_mem f h)
    · rcases List.mem_cons.mp he with h | h
      · exact Or.inr (h ▸ List.mem_cons_self f rest)
      · rcases ih h with h2 | h2
        · exact Or.inl h2
        · exact Or.inr (List.mem_cons_of_mem f h2)

/-- A map write under one key does not change reads of another key. -/
theorem lookupA_updateA_ne {κ α : Type} [BEq κ] [LawfulBEq κ]
    (m : List (κ × α)) (k k2 : κ) (v : α) (hne : k2 ≠ k) :
    lookupA (updateA m k v) k2 = lookupA m k2 := by
  have hk : (k == k2) = false := by
    rw [beq_eq_false_iff_ne]
    exact fun h => hne h.symm
  induction m with
  | nil => simp [updateA, lookupA, List.find?, hk]
  | cons f rest ih =>
    by_cases hf : (f.1 == k) = true
    · have hf1 : f.1 = k := eq_of_beq hf
      have hf2 : (f.1 == k2) = false := by rw [hf1]; exact hk
      simp only [updateA, if_pos hf]
      simp only [lookupA, List.find?, hk, hf2]
    · simp only [updateA, if_neg hf]
      cases hf2 : (f.1 == k2) with
      | true => simp [lookupA, List.find?, hf2]
      | false =>
        simp only [lookupA, List.find?, hf2] at ih ⊢
        exact ih

/-- Every entry surviving the `Handler` scan was in the map before it. -/
theorem scanHandlers_mem (now : Nat) (l : AddrMap) (e : String × ProxyHandler)
    (he : e ∈ (scanHandlers now l).2) : e ∈ l := by
  induction l with
  | nil => simp [scanHandlers] at he
  | cons f rest ih =>
    obtain ⟨addr, h⟩ := f
    simp only [scanHandlers] at he
    cases hstep : aliveStep h now with
    | mk alive h2 =>
      rw [hstep] at he
      cases alive with
      | true =>
        simp only at he
        rcases List.mem_cons.mp he with h3 | h3
        · rw [aliveStep_true_eq h h2 now hstep] at h3
          exact h3 ▸ List.mem_cons_self _ rest
        · exact List.mem_cons_of_mem _ h3
      | false =>
        simp only at he
        exact List.mem_cons_of_mem _ (ih he)

/-- `add` preserves (and for the written slot establishes) the undrained
invariant, at every port. -/
theorem consumed_false_add (ph : ProxyHandlersMap) (port : Nat) (addr : String)
    (hdl : HttpHandler) (now p : Nat)
    (hwf : ∀ e ∈ lookupPort ph p, e.2.consumed = false) :
    ∀ e ∈ lookupPort (phAdd ph port addr hdl now) p, e.2.consumed = false := by
  intro e he
  by_cases hp : p = port
  · subst hp
    rw [phAdd, lookupPort_updateA_self] at he
    rcases updateA_mem _ _ _ _ he with h | h
    · rw [h]
      rfl
    · exact hwf e h
  · rw [phAdd] at he
    rw [show lookupPort (updateA ph port
        (updateA (lookupPort ph port) addr (newProxyHandler hdl now))) p = lookupPort ph p from by
      simp [lookupPort, lookupA_updateA_ne _ _ _ _ hp]] at he
    exact hwf e he

/-- The `Handler` scan preserves the undrained invariant, at every port:
an observed-fired handle is deleted, never stored back. -/
theorem consumed_false_handler (ph : ProxyHandlersMap) (port now p : Nat)
    (hwf : ∀ e ∈ lookupPort ph p, e.2.consumed = false) :
    ∀ e ∈ lookupPort (phHandler ph port now).2 p, e.2.consumed = false := by
  intro e he
  by_cases hempty : (lookupPort ph port).isEmpty
  · simp only [phHandler, if_pos hempty] at he
    exact hwf e he
  · simp only [phHandler, if_neg hempty] at he
    by_cases hp : p = port
    · subst hp
      rw [lookupPort_updateA_self] at he
      exact hwf e (scanHandlers_mem now _ e he)
    · rw [show lookupPort (updateA ph port (scanHandlers now (lookupPort ph port)).2) p =
          lookupPort ph p from by
        simp [lookupPort, lookupA_updateA_ne _ _ _ _ hp]] at he
      exact hwf e he
